import Mathlib

/-!
Verification of the Seclume archive extract/list core against its source
(`src/extract.c`, `src/list.c`, `src/utils.c`).  The C code is shallowly
embedded: bytes are `Nat`, C strings are NUL-free `List Nat`, external
effects (fread, malloc, stat, OpenSSL primitives) are supplied by an
explicit environment, and each function returns its `int` result together
with a trace of observable events (key zeroization, stream close, entry
reads, path joins, payload reads, writes).
-/

namespace Seclume

/-- Modelled from the spec: constants from the missing `seclume.h`
(spec section 3 gives the values). -/
def MAX_FILENAME : Nat := 256

/-- Modelled from the spec: maximum number of archive entries. -/
def MAX_FILES : Nat := 1024

/-- Modelled from the spec: maximum plaintext file size (`2^32 - 1`). -/
def MAX_FILE_SIZE : Nat := 2 ^ 32 - 1

/-- Modelled from the spec: size of the fixed `outdir` header field. -/
def MAX_OUTDIR : Nat := 4096

/-- Modelled from the spec: PBKDF2 salt length. -/
def SALT_SIZE : Nat := 16

/-- Modelled from the spec: AES-256 key length. -/
def AES_KEY_SIZE : Nat := 32

/-- Modelled from the spec: GCM nonce length. -/
def AES_NONCE_SIZE : Nat := 12

/-- Modelled from the spec: GCM tag length. -/
def AES_TAG_SIZE : Nat := 16

/-- Modelled from the spec: HMAC-SHA256 output length. -/
def HMAC_SIZE : Nat := 32

/-- Modelled from the spec: `CompressionAlgo` enumerator `COMPRESSION_ZLIB = 0`. -/
def COMPRESSION_ZLIB : Nat := 0

/-- Modelled from the spec: `CompressionAlgo` enumerator `COMPRESSION_LZMA = 1`. -/
def COMPRESSION_LZMA : Nat := 1

/-- Modelled from the spec: the packed `ArchiveHeader` struct of `seclume.h`.
Byte-array fields are byte lists; integer fields are `Nat`. -/
structure ArchiveHeader where
  magic : List Nat
  version : Nat
  file_count : Nat
  salt : List Nat
  compression_algo : Nat
  compression_level : Nat
  outdir_len : Nat
  outdir : List Nat
  hmac : List Nat

/-- Modelled from the spec: the on-disk `FileEntry` struct
(`nonce(12) , tag(16) , encrypted_data(sizeof(FileEntryPlain))`). -/
structure FileEntry where
  nonce : List Nat
  tag : List Nat
  encrypted_data : List Nat

/-- Modelled from the spec: the decrypted `FileEntryPlain` metadata struct
(`filename[256]`, `original_size : u64`, `compressed_size : u64`, `mode : u32`). -/
structure FileEntryPlain where
  filename : List Nat
  original_size : Nat
  compressed_size : Nat
  mode : Nat

/-- Modelled from the spec: size of the packed `FileEntryPlain`
(256 + 8 + 8 + 4 bytes). -/
def sizeofFileEntryPlain : Nat := MAX_FILENAME + 8 + 8 + 4

/-- The C string denoted by a byte buffer: everything before the first NUL. -/
def cstr (l : List Nat) : List Nat := l.takeWhile (fun b => b ≠ 0)

/-- Boolean test that `needle` occurs at the start of `hay`
(the inner loop of `strstr`, and the shape of `strncmp(p, lit, n) == 0`). -/
def leadsWith : List Nat → List Nat → Bool
  | [], _ => true
  | _ :: _, [] => false
  | a :: as, b :: bs => a == b && leadsWith as bs

/-- Boolean substring test, the embedding of `strstr(hay, needle) != NULL`. -/
def containsSub (needle : List Nat) : List Nat → Bool
  | [] => leadsWith needle []
  | b :: bs => leadsWith needle (b :: bs) || containsSub needle bs

/-- Embedding of `has_path_traversal` from `src/utils.c` lines 123-133.
Byte 46 is a dot, 47 a slash, 92 a backslash. -/
def has_path_traversal (path : List Nat) : Bool :=
  if containsSub [46, 46, 47] path || containsSub [46, 46, 92] path
      || path == [46, 46] then
    true
  else
    let p := match path with
      | c :: rest => if c == 47 then rest else path
      | [] => path
    if p.take 2 == [46, 46] && (p.length == 2 || p.get? 2 == some 47) then
      true
    else
      false

/-- Embedding of the metadata validation condition at `src/extract.c`
lines 193-195 (identical at `src/list.c` lines 128-130): the disjunction
whose truth makes the entry be rejected. -/
def metaInvalid (dsz : Nat) (pe : FileEntryPlain) : Bool :=
  decide (dsz ≠ sizeofFileEntryPlain)
  || decide (pe.filename.get? (MAX_FILENAME - 1) ≠ some 0)
  || has_path_traversal (cstr pe.filename)
  || (decide (0 < pe.compressed_size) && decide (pe.original_size = 0))
  || decide (MAX_FILE_SIZE < pe.original_size)

/-- Little-endian encoding of a `u16` field value. -/
def le2 (n : Nat) : List Nat := [n % 256, n / 256 % 256]

/-- Little-endian encoding of a `u32` field value. -/
def le4 (n : Nat) : List Nat :=
  [n % 256, n / 256 % 256, n / 256 ^ 2 % 256, n / 256 ^ 3 % 256]

/-- Modelled from the spec: serialization of the packed `ArchiveHeader` up to
but excluding the `hmac` field — the byte range that `(uint8_t *)&header` with
length `offsetof(ArchiveHeader, hmac)` denotes in `src/extract.c` line 71 and
`src/list.c` line 63. -/
def headerBytesPre (h : ArchiveHeader) : List Nat :=
  h.magic ++ le2 h.version ++ le4 h.file_count ++ h.salt
    ++ [h.compression_algo % 256] ++ [h.compression_level % 256]
    ++ le4 h.outdir_len ++ h.outdir

/-- Modelled from the spec: full serialization of the packed `ArchiveHeader`,
`hmac` field included. -/
def headerBytes (h : ArchiveHeader) : List Nat := headerBytesPre h ++ h.hmac

/-- Modelled from the spec: `offsetof(ArchiveHeader, hmac)` for the packed
layout: 4 + 2 + 4 + 16 + 1 + 1 + 4 + 4096. -/
def offsetofHmac : Nat := 4128

/-- Well-formedness of a header record: the byte-array fields have the
widths the packed C struct gives them. -/
def hdrWf (h : ArchiveHeader) : Prop :=
  h.magic.length = 4 ∧ h.salt.length = SALT_SIZE ∧ h.outdir.length = MAX_OUTDIR

/-- The four magic bytes compared by `strncmp(header.magic, "SLM", 4)`. -/
def SLM_MAGIC : List Nat := [83, 76, 77, 0]

/-- The literal `"."` directory string. -/
def dotPath : List Nat := [46]

/-- Observable events emitted by the embedded extract/list functions, in
program order: key zeroization (`secure_zero` on `file_key` / `meta_key`),
closing of the archive stream (`fclose(in)`), the HMAC computation with its
key and input bytes, per-entry reads and processing steps. -/
inductive Ev where
  | zeroFileKey : Ev
  | zeroMetaKey : Ev
  | closeIn : Ev
  | hmacCall (key : List Nat) (data : List Nat) : Ev
  | readEntry (i : Nat) : Ev
  | joinPath (dir fname : List Nat) : Ev
  | createEmpty (i : Nat) : Ev
  | readPayloadNonceTag (i : Nat) : Ev
  | readPayloadData (i : Nat) (n : Nat) : Ev
  | aeadOpenFile (i : Nat) (ctLen : Nat) : Ev
  | writeFile (i : Nat) (n : Nat) : Ev
  | printEntry (i : Nat) : Ev
  | skipPayload (i : Nat) : Ev
  | warnStop (i : Nat) : Ev

/-- Cleanup event sequence shared by the error returns of `extract_files`
and `list_files` after the keys are in scope: `secure_zero(file_key)`,
`secure_zero(meta_key)`, `fclose(in)`. -/
def cleanup : List Ev := [Ev.zeroFileKey, Ev.zeroMetaKey, Ev.closeIn]

/-- Per-entry external-world outcomes for one iteration of the extract loop
(`src/extract.c` lines 173-380): read results, allocation successes, file
system answers, the AEAD oracle lives in the context. -/
structure EntryEnv where
  entryRead : Option FileEntry
  allocPathOk : Bool
  fileExists : Bool
  parentOk : Bool
  emptyOpenOk : Bool
  nonceTagRead : Option (List Nat × List Nat)
  allocEncOk : Bool
  dataRead : Option (List Nat)
  allocCompOk : Bool
  allocOutOk : Bool
  decompressOut : Nat
  outOpenOk : Bool
  writeOk : Bool

/-- Context threaded through the extract loop: the derived keys, the AEAD
oracles, the resolved extraction directory, the `force` flag, and the
per-entry environments. -/
structure Ctx where
  aeadMeta : List Nat → List Nat → List Nat → List Nat →
    Option (FileEntryPlain × Nat)
  aeadBytes : List Nat → List Nat → List Nat → List Nat → Option (List Nat)
  entries : Nat → EntryEnv
  fileKey : List Nat
  metaKey : List Nat
  dir : List Nat
  force : Bool

/-- Tail of one extract-loop iteration from `malloc(comp_buf)` on
(`src/extract.c` lines 291-379), after the ciphertext `ct` has been obtained
(`preEvs` are the events so far, `devs` the data-read events). -/
def entryTail (c : Ctx) (i : Nat) (e : EntryEnv) (pe : FileEntryPlain)
    (preEvs : List Ev) (ct : List Nat) (devs : List Ev)
    (nz tg : List Nat) : Except (List Ev) (List Ev) :=
  if e.allocCompOk then
    match c.aeadBytes c.fileKey nz ct tg with
    | none => .error (preEvs ++ devs ++ cleanup)
    | some _comp =>
      if e.allocOutOk then
        if e.decompressOut = pe.original_size then
          if e.outOpenOk then
            if e.writeOk then
              .ok (preEvs ++ devs ++ [Ev.aeadOpenFile i ct.length,
                Ev.writeFile i pe.original_size])
            else .error (preEvs ++ devs ++ [Ev.aeadOpenFile i ct.length]
              ++ cleanup)
          else .error (preEvs ++ devs ++ [Ev.aeadOpenFile i ct.length]
            ++ cleanup)
        else .error (preEvs ++ devs ++ [Ev.aeadOpenFile i ct.length]
          ++ cleanup)
      else .error (preEvs ++ devs ++ [Ev.aeadOpenFile i ct.length] ++ cleanup)
  else .error (preEvs ++ devs ++ cleanup)

/-- One iteration of the extract loop (`src/extract.c` lines 173-380):
read a `FileEntry`, AEAD-open its metadata, validate it, compose the output
path, overwrite check, parent directories, then either the empty-file branch
or the payload pipeline.  `error` carries the events of a `return 1` path
(cleanup included); `ok` the events of a completed iteration. -/
def entryStep (c : Ctx) (i : Nat) (e : EntryEnv) : Except (List Ev) (List Ev) :=
  match e.entryRead with
  | none => .error cleanup
  | some ent =>
    match c.aeadMeta c.metaKey ent.nonce ent.encrypted_data ent.tag with
    | none => .error (Ev.readEntry i :: cleanup)
    | some (pe, dsz) =>
      if metaInvalid dsz pe then .error (Ev.readEntry i :: cleanup)
      else if e.allocPathOk then
        if !c.force && e.fileExists then
          .error ([Ev.readEntry i, Ev.joinPath c.dir (cstr pe.filename)]
            ++ cleanup)
        else if e.parentOk then
          if pe.original_size = 0 then
            if e.emptyOpenOk then
              .ok [Ev.readEntry i, Ev.joinPath c.dir (cstr pe.filename),
                Ev.createEmpty i]
            else .error ([Ev.readEntry i,
              Ev.joinPath c.dir (cstr pe.filename)] ++ cleanup)
          else
            match e.nonceTagRead with
            | none => .error ([Ev.readEntry i,
                Ev.joinPath c.dir (cstr pe.filename)] ++ cleanup)
            | some (nz, tg) =>
              if e.allocEncOk then
                if pe.compressed_size = 0 then
                  entryTail c i e pe [Ev.readEntry i,
                    Ev.joinPath c.dir (cstr pe.filename),
                    Ev.readPayloadNonceTag i] [] [] nz tg
                else
                  match e.dataRead with
                  | none => .error ([Ev.readEntry i,
                      Ev.joinPath c.dir (cstr pe.filename),
                      Ev.readPayloadNonceTag i] ++ cleanup)
                  | some bs =>
                    entryTail c i e pe [Ev.readEntry i,
                      Ev.joinPath c.dir (cstr pe.filename),
                      Ev.readPayloadNonceTag i] bs
                      [Ev.readPayloadData i pe.compressed_size] nz tg
              else .error ([Ev.readEntry i,
                Ev.joinPath c.dir (cstr pe.filename),
                Ev.readPayloadNonceTag i] ++ cleanup)
        else .error ([Ev.readEntry i, Ev.joinPath c.dir (cstr pe.filename)]
          ++ cleanup)
      else .error (Ev.readEntry i :: cleanup)

/-- The extract loop over `file_count` entries, starting at entry index `i`
with `r` iterations remaining.  When the loop completes, `src/extract.c`
lines 381-386 zero both keys, close the stream and return 0. -/
def extractLoop (c : Ctx) : Nat → Nat → Nat × List Ev
  | _, 0 => (0, cleanup)
  | i, r + 1 =>
    match entryStep c i (c.entries i) with
    | .error evs => (1, evs)
    | .ok evs =>
      ((extractLoop c (i + 1) r).1, evs ++ (extractLoop c (i + 1) r).2)

/-- External-world outcomes for a whole `extract_files` run: open/read
results, key derivation and crypto oracles, allocation successes, the
`stat`-is-a-directory answer, and the per-entry environments. -/
structure ExtractEnv where
  openOk : Bool
  headerRead : Option ArchiveHeader
  deriveFileKey : Option (List Nat)
  deriveMetaKey : Option (List Nat)
  hmacFn : List Nat → List Nat → Option (List Nat)
  aeadMeta : List Nat → List Nat → List Nat → List Nat →
    Option (FileEntryPlain × Nat)
  aeadBytes : List Nat → List Nat → List Nat → List Nat → Option (List Nat)
  allocOutdirArgOk : Bool
  allocDecOutdirOk : Bool
  allocDotOk : Bool
  allocDot2Ok : Bool
  isDir : List Nat → Bool
  entries : Nat → EntryEnv

/-- Version gating of the compression algorithm (`src/extract.c` lines
38-53): version 4 is unconditionally LZMA; versions 5 and 6 must carry a
valid `compression_algo`. -/
def algoOf (h : ArchiveHeader) : Option Nat :=
  if h.version = 4 then some COMPRESSION_LZMA
  else if h.compression_algo ≠ COMPRESSION_ZLIB
      ∧ h.compression_algo ≠ COMPRESSION_LZMA then none
  else some h.compression_algo

/-- Candidate extraction directory before the `stat` fallback
(`src/extract.c` lines 85-150): caller argument, else the decrypted header
outdir for version ≥ 6 with `outdir_len > 0`, else `"."`.  `none` is a
`return 1` path. -/
def resolveCandidate (env : ExtractEnv) (mk : List Nat) (h : ArchiveHeader)
    (arg : Option (List Nat)) : Option (List Nat) :=
  match arg with
  | some d => if env.allocOutdirArgOk then some d else none
  | none =>
    if 6 ≤ h.version ∧ 0 < h.outdir_len then
      if MAX_OUTDIR - AES_NONCE_SIZE - AES_TAG_SIZE < h.outdir_len then none
      else if env.allocDecOutdirOk then
        match env.aeadBytes mk ((h.outdir.drop h.outdir_len).take AES_NONCE_SIZE)
            (h.outdir.take h.outdir_len)
            ((h.outdir.drop (h.outdir_len + AES_NONCE_SIZE)).take AES_TAG_SIZE) with
        | none => none
        | some dec =>
          if dec.length ≠ h.outdir_len then none
          else if has_path_traversal (cstr dec) then none
          else some (cstr dec)
      else none
    else if env.allocDotOk then some dotPath else none

/-- Extraction-directory resolution including the `stat` fallback
(`src/extract.c` lines 85-171): if the candidate is not a directory, fall
back to `"."`; if `"."` is not a directory either, fail. -/
def resolveExtractDir (env : ExtractEnv) (mk : List Nat) (h : ArchiveHeader)
    (arg : Option (List Nat)) : Option (List Nat) :=
  match resolveCandidate env mk h arg with
  | none => none
  | some cand =>
    if env.isDir cand then some cand
    else if env.allocDot2Ok then
      if env.isDir dotPath then some dotPath else none
    else none

/-- Build the loop context of `extract_files` from the environment, the two
derived keys, the resolved extraction directory and the `force` flag. -/
def mkCtx (env : ExtractEnv) (fk mk dir : List Nat) (force : Bool) : Ctx :=
  Ctx.mk env.aeadMeta env.aeadBytes env.entries fk mk dir force

/-- Embedding of `extract_files` from `src/extract.c`: returns the C `int`
result and the trace of observable events. -/
def extract_files (env : ExtractEnv) (arg : Option (List Nat))
    (force : Bool) : Nat × List Ev :=
  if !env.openOk then (1, [])
  else match env.headerRead with
  | none => (1, [Ev.closeIn])
  | some h =>
    if ¬(h.magic = SLM_MAGIC ∧ 4 ≤ h.version ∧ h.version ≤ 6) then
      (1, [Ev.closeIn])
    else match algoOf h with
    | none => (1, [Ev.closeIn])
    | some _algo =>
      if MAX_FILES < h.file_count then (1, [Ev.closeIn])
      else match env.deriveFileKey, env.deriveMetaKey with
      | some fk, some mk =>
        (match env.hmacFn fk (headerBytesPre h) with
        | none => (1, Ev.hmacCall fk (headerBytesPre h) :: cleanup)
        | some ch =>
          if ch ≠ h.hmac then
            (1, Ev.hmacCall fk (headerBytesPre h) :: cleanup)
          else
            match resolveExtractDir env mk h arg with
            | none => (1, Ev.hmacCall fk (headerBytesPre h) :: cleanup)
            | some dir =>
              ((extractLoop (mkCtx env fk mk dir force) 0 h.file_count).1,
                Ev.hmacCall fk (headerBytesPre h) ::
                  (extractLoop (mkCtx env fk mk dir force) 0 h.file_count).2))
      | _, _ => (1, [Ev.closeIn])

/-- Per-entry external-world outcomes for one iteration of the list loop
(`src/list.c` lines 81-172). -/
structure ListEntryEnv where
  tellOk : Bool
  entryRead : Option FileEntry
  tellAfterOk : Bool
  nonceTagReadable : Bool
  tellSkipOk : Bool
  seekOk : Bool

/-- Context threaded through the list loop: the metadata key, the AEAD
oracle and the per-entry environments. -/
structure LCtx where
  metaKey : List Nat
  aeadMeta : List Nat → List Nat → List Nat → List Nat →
    Option (FileEntryPlain × Nat)
  lentries : Nat → ListEntryEnv

/-- Result of one list-loop iteration: a fatal `return 1` with its events,
or a continuation carrying the increment of the `errors` counter and the
events of the iteration. -/
inductive LStep where
  | fatal (evs : List Ev) : LStep
  | cont (errInc : Nat) (evs : List Ev) : LStep

/-- One iteration of the list loop (`src/list.c` lines 81-172): remember
the position, read a `FileEntry`, AEAD-open the metadata; on auth failure
count an error and halt if the payload bytes are readable, otherwise seek
back and continue; on invalid metadata count an error and skip the payload
if `compressed_size > 0`; on success print the entry and skip the payload. -/
def listStep (c : LCtx) (i : Nat) (e : ListEntryEnv) : LStep :=
  if e.tellOk then
    match e.entryRead with
    | none => .fatal cleanup
    | some ent =>
      match c.aeadMeta c.metaKey ent.nonce ent.encrypted_data ent.tag with
      | none =>
        if e.tellAfterOk then
          if e.nonceTagReadable then
            .fatal ([Ev.readEntry i, Ev.warnStop i] ++ cleanup)
          else .cont 1 [Ev.readEntry i]
        else .fatal (Ev.readEntry i :: cleanup)
      | some (pe, dsz) =>
        if metaInvalid dsz pe then
          if 0 < pe.compressed_size then
            if e.tellSkipOk then
              if e.seekOk then .cont 1 [Ev.readEntry i, Ev.skipPayload i]
              else .fatal (Ev.readEntry i :: cleanup)
            else .fatal (Ev.readEntry i :: cleanup)
          else .cont 1 [Ev.readEntry i]
        else
          if 0 < pe.compressed_size then
            if e.tellSkipOk then
              if e.seekOk then
                .cont 0 [Ev.readEntry i, Ev.printEntry i, Ev.skipPayload i]
              else .fatal ([Ev.readEntry i, Ev.printEntry i] ++ cleanup)
            else .fatal ([Ev.readEntry i, Ev.printEntry i] ++ cleanup)
          else .cont 0 [Ev.readEntry i, Ev.printEntry i]
  else .fatal cleanup

/-- The list loop over `file_count` entries with the running `errors`
counter; when it completes, `src/list.c` lines 173-180 zero the keys, close
the stream, and return 1 exactly when some entry failed. -/
def listLoop (c : LCtx) : Nat → Nat → Nat → Nat × List Ev
  | _, 0, errors => (if 0 < errors then 1 else 0, cleanup)
  | i, r + 1, errors =>
    match listStep c i (c.lentries i) with
    | .fatal evs => (1, evs)
    | .cont d evs =>
      ((listLoop c (i + 1) r (errors + d)).1,
        evs ++ (listLoop c (i + 1) r (errors + d)).2)

/-- External-world outcomes for a whole `list_files` run. -/
structure ListEnv where
  openOk : Bool
  headerRead : Option ArchiveHeader
  deriveFileKey : Option (List Nat)
  deriveMetaKey : Option (List Nat)
  hmacFn : List Nat → List Nat → Option (List Nat)
  aeadMeta : List Nat → List Nat → List Nat → List Nat →
    Option (FileEntryPlain × Nat)
  lentries : Nat → ListEntryEnv

/-- Embedding of `list_files` from `src/list.c`: returns the C `int` result
and the trace of observable events.  Unlike `extract_files`, the derive-key
failure path zeroes both key buffers (`src/list.c` lines 53-58), and no
`compression_algo` validation is performed. -/
def list_files (env : ListEnv) : Nat × List Ev :=
  if !env.openOk then (1, [])
  else match env.headerRead with
  | none => (1, [Ev.closeIn])
  | some h =>
    if ¬(h.magic = SLM_MAGIC ∧ 4 ≤ h.version ∧ h.version ≤ 6) then
      (1, [Ev.closeIn])
    else if MAX_FILES < h.file_count then (1, [Ev.closeIn])
    else match env.deriveFileKey, env.deriveMetaKey with
    | some fk, some mk =>
      (match env.hmacFn fk (headerBytesPre h) with
      | none => (1, Ev.hmacCall fk (headerBytesPre h) :: cleanup)
      | some ch =>
        if ch ≠ h.hmac then
          (1, Ev.hmacCall fk (headerBytesPre h) :: cleanup)
        else
          ((listLoop (LCtx.mk mk env.aeadMeta env.lentries) 0 h.file_count 0).1,
            Ev.hmacCall fk (headerBytesPre h) ::
              (listLoop (LCtx.mk mk env.aeadMeta env.lentries) 0 h.file_count 0).2))
    | _, _ => (1, cleanup)

/-- Events of either outcome of an extract-loop iteration. -/
def stepEvs : Except (List Ev) (List Ev) → List Ev
  | .error evs => evs
  | .ok evs => evs

/-- Spec-side extraction-directory resolution, written from the claim: the
caller-supplied argument wins; otherwise, for version >= 6 with
`outdir_len > 0`, the header outdir is used after checking
`outdir_len <= MAX_OUTDIR - 12 - 16`, AEAD-opening it with `meta_key`,
checking the decrypted length, and rejecting traversal; otherwise `"."`.
If the chosen directory is not a directory, fall back to `"."`; if `"."`
also fails, the resolution fails. -/
def resolveSpecDir (env : ExtractEnv) (mk : List Nat) (hdr : ArchiveHeader)
    (arg : Option (List Nat)) : Option (List Nat) :=
  let chosen : Option (List Nat) :=
    match arg with
    | some d => some d
    | none =>
      if 6 ≤ hdr.version ∧ 0 < hdr.outdir_len then
        if hdr.outdir_len ≤ MAX_OUTDIR - 12 - 16 then
          match env.aeadBytes mk ((hdr.outdir.drop hdr.outdir_len).take 12)
              (hdr.outdir.take hdr.outdir_len)
              ((hdr.outdir.drop (hdr.outdir_len + 12)).take 16) with
          | some dec =>
            if dec.length = hdr.outdir_len
                ∧ has_path_traversal (cstr dec) = false then
              some (cstr dec)
            else none
          | none => none
        else none
      else some dotPath
  match chosen with
  | none => none
  | some cand =>
    if env.isDir cand then some cand
    else if env.isDir dotPath then some dotPath else none

/-- Spec-side reformulation of the PathGuard predicate, written from the
spec sentence: the string contains `"../"` or `"..\\"`, equals `".."`, or,
after optionally stripping a single leading `/`, begins with `".."` followed
by the terminator or by `/`. -/
def traversalSpec (s : List Nat) : Prop :=
  (∃ a b, s = a ++ [46, 46, 47] ++ b) ∨ (∃ a b, s = a ++ [46, 46, 92] ++ b)
  ∨ s = [46, 46]
  ∨ (∃ rest, (if s.head? = some 47 then s.tail else s) = 46 :: 46 :: rest
      ∧ (rest = [] ∨ rest.head? = some 47))

/-- Concrete instantiation of `extract_meta_validation`: an entry whose
metadata decrypts to a zero declared length is rejected and the loop
returns 1 immediately. -/
def entW : FileEntry := FileEntry.mk [] [] []

/-- Decoded metadata used by witnesses: all-empty, size zero. -/
def peBadW : FileEntryPlain := FileEntryPlain.mk [] 0 0 0

/-- Per-entry environment used by witnesses. -/
def eentW : EntryEnv :=
  EntryEnv.mk (some entW) true false true true none true none true true 0
    true true

/-- Loop context used by the `extract_meta_validation` witness: the AEAD
oracle opens every metadata blob to `peBadW` with declared length 0. -/
def cW : Ctx :=
  Ctx.mk (fun _ _ _ _ => some (peBadW, 0)) (fun _ _ _ _ => none)
    (fun _ => eentW) [] [] [46] false

/-- C4 (divergence witness): in `extract_files`, the return path where
`derive_key` fails (`src/extract.c` lines 63-67) closes the archive stream
but does not pass either key buffer through `secure_zero`, contradicting
the claim that every return path zeroes both keys.  The header below is
otherwise fully valid, `file_key` derivation succeeds and `meta_key`
derivation fails. -/
def hOkW : ArchiveHeader := ArchiveHeader.mk SLM_MAGIC 5 0 [] 0 0 0 [] []

/-- Extract environment for the C4 divergence: metadata-key derivation
fails after file-key derivation succeeded. -/
def envC4 : ExtractEnv :=
  ExtractEnv.mk true (some hOkW) (some [7]) none (fun _ _ => none)
    (fun _ _ _ _ => none) (fun _ _ _ _ => none) true true true true
    (fun _ => true) (fun _ => eentW)

/-- Header fixture for the `header_hmac_coverage` witness: well-formed
field widths, valid magic/version/count, stored HMAC all zeros while the
oracle computes `[1]`. -/
def hC2 : ArchiveHeader :=
  ArchiveHeader.mk SLM_MAGIC 6 0 (List.replicate 16 0) 0 0 0
    (List.replicate 4096 0) (List.replicate 32 0)

/-- Extract environment for the `header_hmac_coverage` witness. -/
def envC2 : ExtractEnv :=
  ExtractEnv.mk true (some hC2) (some [2]) (some [3]) (fun _ _ => some [1])
    (fun _ _ _ _ => none) (fun _ _ _ _ => none) true true true true
    (fun _ => true) (fun _ => eentW)

/-- List environment for the `header_hmac_coverage` witness. -/
def lenvC2 : ListEnv :=
  ListEnv.mk true (some hC2) (some [2]) (some [3]) (fun _ _ => some [1])
    (fun _ _ _ _ => none)
    (fun _ => ListEntryEnv.mk true none true false true true)

/-- Entry fixture for the `decompress_length_gate` witness. -/
def ent9 : FileEntry := FileEntry.mk [] [] []

/-- Metadata fixture for the `decompress_length_gate` witness: 5 plaintext
bytes, zero compressed bytes, valid filename. -/
def pe9 : FileEntryPlain := FileEntryPlain.mk (List.replicate 256 0) 5 0 0

/-- Per-entry environment for the `decompress_length_gate` witness: the
decompressor reports 4 bytes instead of the expected 5. -/
def e9 : EntryEnv :=
  EntryEnv.mk (some ent9) true false true true (some ([], [])) true none
    true true 4 true true

/-- Loop context for the `decompress_length_gate` witness. -/
def c9 : Ctx :=
  Ctx.mk (fun _ _ _ _ => some (pe9, 276)) (fun _ _ _ _ => some [])
    (fun _ => e9) [] [] [46] false

/-- Entry fixture for the `payload_read_iff_positive_size` witness. -/
def ent10 : FileEntry := FileEntry.mk [] [] []

/-- Metadata fixture for the `payload_read_iff_positive_size` witness: a
zero-byte file with a valid filename. -/
def pe10 : FileEntryPlain := FileEntryPlain.mk (List.replicate 256 0) 0 0 0

/-- Per-entry environment for the `payload_read_iff_positive_size`
witness. -/
def e10 : EntryEnv :=
  EntryEnv.mk (some ent10) true false true true (some ([], [])) true none
    true true 0 true true

/-- Loop context for the `payload_read_iff_positive_size` witness. -/
def c10 : Ctx :=
  Ctx.mk (fun _ _ _ _ => some (pe10, 276)) (fun _ _ _ _ => some [])
    (fun _ => e10) [] [] [46] false

/-- Header fixture for the `join_components_traversal_free` witness: valid
version-5 header with one entry and an empty stored HMAC matched by the
oracle. -/
def hC5 : ArchiveHeader := ArchiveHeader.mk SLM_MAGIC 5 1 [] 0 0 0 [] []

/-- Extract environment for the `join_components_traversal_free` witness:
one entry that decodes to valid zero-size metadata, so the loop composes
one output path. -/
def envC5 : ExtractEnv :=
  ExtractEnv.mk true (some hC5) (some [2]) (some [3]) (fun _ _ => some [])
    (fun _ _ _ _ => some (pe10, 276)) (fun _ _ _ _ => some []) true true
    true true (fun _ => true) (fun _ => e10)

/-- Header fixture for the C7 counterexample: version 5 with the invalid
compression algorithm 7, zero entries, stored HMAC matched by the oracle. -/
def hC7 : ArchiveHeader := ArchiveHeader.mk SLM_MAGIC 5 0 [] 7 0 0 [] []

/-- List environment for the C7 counterexample. -/
def lenvC7 : ListEnv :=
  ListEnv.mk true (some hC7) (some [2]) (some [3]) (fun _ _ => some [])
    (fun _ _ _ _ => none)
    (fun _ => ListEntryEnv.mk true none true false true true)

/-- Header fixture with corrupt magic bytes for the C7 amended-claim
witness. -/
def hBadMagic : ArchiveHeader := ArchiveHeader.mk [0, 0, 0, 0] 5 0 [] 0 0 0 [] []

/-- Extract environment holding the corrupt-magic header. -/
def envC7 : ExtractEnv :=
  ExtractEnv.mk true (some hBadMagic) (some [2]) (some [3])
    (fun _ _ => some []) (fun _ _ _ _ => none) (fun _ _ _ _ => none) true
    true true true (fun _ => true) (fun _ => eentW)

/-- Version-4 header fixture with a garbage `compression_algo`, which the
version gating must override to LZMA. -/
def hV4 : ArchiveHeader := ArchiveHeader.mk SLM_MAGIC 4 0 [] 7 0 0 [] []

/-- Header fixture for the C8 counterexample: two entries. -/
def hC8 : ArchiveHeader := ArchiveHeader.mk SLM_MAGIC 5 2 [] 0 0 0 [] []

/-- List environment for the C8 counterexample: entry 0 fails metadata
authentication with no trailing payload bytes readable, entry 1 decodes to
valid metadata. -/
def lenvC8 : ListEnv :=
  ListEnv.mk true (some hC8) (some [2]) (some [3]) (fun _ _ => some [])
    (fun _ nonce _ _ => if nonce = [0] then none else some (pe10, 276))
    (fun i => if i = 0 then
        ListEntryEnv.mk true (some (FileEntry.mk [0] [] [])) true false
          true true
      else
        ListEntryEnv.mk true (some (FileEntry.mk [1] [] [])) true false
          true true)

/-- List-loop context for the C8 amended-claim witness: metadata never
authenticates and the payload bytes are readable, so the loop halts. -/
def lctxC8w : LCtx :=
  LCtx.mk [3] (fun _ _ _ _ => none)
    (fun _ => ListEntryEnv.mk true (some entW) true true true true)

theorem leadsWith_iff (n h : List Nat) :
    leadsWith n h = true ↔ ∃ t, h = n ++ t := by
  induction n generalizing h with
  | nil => simp [leadsWith]
  | cons a as ih =>
    cases h with
    | nil => simp [leadsWith]
    | cons b bs =>
      rw [leadsWith, Bool.and_eq_true, beq_iff_eq, ih]
      constructor
      · rintro ⟨hab, t, ht⟩
        exact ⟨t, by simp [hab, ht]⟩
      · rintro ⟨t, ht⟩
        have hb : b = a ∧ bs = as ++ t := by simpa using ht
        exact ⟨hb.1.symm, t, hb.2⟩

theorem containsSub_iff (n s : List Nat) :
    containsSub n s = true ↔ ∃ a b, s = a ++ n ++ b := by
  induction s with
  | nil =>
    cases n with
    | nil => simp [containsSub, leadsWith]
    | cons x xs => simp [containsSub, leadsWith]
  | cons c cs ih =>
    rw [containsSub, Bool.or_eq_true, leadsWith_iff, ih]
    constructor
    · rintro (⟨t, ht⟩ | ⟨a, b, hab⟩)
      · exact ⟨[], t, by simp [ht]⟩
      · exact ⟨c :: a, b, by simp [hab]⟩
    · rintro ⟨a, b, hab⟩
      cases a with
      | nil => exact Or.inl ⟨b, by simpa using hab⟩
      | cons x a2 =>
        have h2 : c = x ∧ cs = a2 ++ n ++ b := by simpa using hab
        exact Or.inr ⟨a2, b, h2.2⟩

theorem beginsDotDot_iff (p : List Nat) :
    (p.take 2 == [46, 46] && (p.length == 2 || p.get? 2 == some 47)) = true
      ↔ ∃ rest, p = 46 :: 46 :: rest ∧ (rest = [] ∨ rest.head? = some 47) := by
  match p with
  | [] => simp
  | [a] => simp
  | a :: b :: rest =>
    constructor
    · intro h
      have h2 : (a = 46 ∧ b = 46) ∧ (rest.length = 0 ∨ rest.get? 0 = some 47) := by
        simpa using h
      refine ⟨rest, by simp [h2.1.1, h2.1.2], ?_⟩
      rcases h2.2 with h3 | h3
      · exact Or.inl (List.eq_nil_of_length_eq_zero h3)
      · right
        cases rest with
        | nil => simp at h3
        | cons r rs => simpa using h3
    · rintro ⟨rest2, hp, hr⟩
      have hab : a = 46 ∧ b = 46 ∧ rest = rest2 := by simpa using hp
      rcases hr with h3 | h3
      · simp [hab.1, hab.2.1, hab.2.2, h3]
      · cases rest2 with
        | nil => simp at h3
        | cons r rs =>
          have : r = 47 := by simpa using h3
          simp [hab.1, hab.2.1, hab.2.2, this]

theorem beginsDotDot_ite_iff (p : List Nat) :
    (if p.take 2 == [46, 46] && (p.length == 2 || p.get? 2 == some 47) then
        true else (false : Bool)) = true
      ↔ ∃ rest, p = 46 :: 46 :: rest ∧ (rest = [] ∨ rest.head? = some 47) := by
  rw [← beginsDotDot_iff]
  split
  next h => exact iff_of_true rfl h
  next h => exact iff_of_false (by simp) h

/-- C3: `has_path_traversal(s)` returns true if and only if `s` contains
the substring `"../"` or `"..\\"`, `s` equals `".."`, or, after optionally
stripping a single leading `/`, `s` begins with `".."` followed by the
terminator or by `/`; otherwise it returns false. -/
theorem has_path_traversal_matches_spec (s : List Nat) :
    has_path_traversal s = true ↔ traversalSpec s := by
  have hstrip : (match s with
      | c :: rest => if c == 47 then rest else s
      | [] => s) = (if s.head? = some 47 then s.tail else s) := by
    cases s with
    | nil => rfl
    | cons c rest => by_cases h : c = 47 <;> simp [h]
  rw [has_path_traversal.eq_def]
  split
  next hA =>
    refine iff_of_true rfl ?_
    rw [traversalSpec]
    rcases Bool.or_eq_true _ _ |>.mp hA with h | h
    · rcases Bool.or_eq_true _ _ |>.mp h with h2 | h2
      · exact Or.inl ((containsSub_iff _ _).mp h2)
      · exact Or.inr (Or.inl ((containsSub_iff _ _).mp h2))
    · exact Or.inr (Or.inr (Or.inl (by simpa using h)))
  next hA =>
    rw [Bool.or_eq_true, Bool.or_eq_true] at hA
    have h1 : ¬containsSub [46, 46, 47] s = true :=
      fun hx => hA (Or.inl (Or.inl hx))
    have h2 : ¬containsSub [46, 46, 92] s = true :=
      fun hx => hA (Or.inl (Or.inr hx))
    have h3 : ¬(s == [46, 46]) = true := fun hx => hA (Or.inr hx)
    simp only [hstrip]
    rw [beginsDotDot_ite_iff]
    constructor
    · intro hx
      rw [traversalSpec]
      exact Or.inr (Or.inr (Or.inr hx))
    · intro hsp
      rw [traversalSpec] at hsp
      rcases hsp with hx | hx | hx | hx
      · exact absurd ((containsSub_iff _ _).mpr hx) h1
      · exact absurd ((containsSub_iff _ _).mpr hx) h2
      · exact absurd (by simpa using hx) h3
      · exact hx

theorem metaInvalid_false_iff (dsz : Nat) (pe : FileEntryPlain) :
    metaInvalid dsz pe = false ↔
      (dsz = sizeofFileEntryPlain
        ∧ pe.filename.get? (MAX_FILENAME - 1) = some 0
        ∧ has_path_traversal (cstr pe.filename) = false
        ∧ (pe.compressed_size = 0 ∨ 0 < pe.original_size)
        ∧ pe.original_size ≤ MAX_FILE_SIZE) := by
  have hbool : (metaInvalid dsz pe = false) ↔ ¬(metaInvalid dsz pe = true) := by
    cases metaInvalid dsz pe <;> simp
  rw [hbool, metaInvalid]
  simp only [Bool.or_eq_true, Bool.and_eq_true, decide_eq_true_eq]
  constructor
  · intro h
    push_neg at h
    obtain ⟨⟨⟨⟨hA, hB⟩, hC⟩, hD⟩, hE⟩ := h
    refine ⟨hA, hB, ?_, ?_, hE⟩
    · cases hpt : has_path_traversal (cstr pe.filename) with
      | false => rfl
      | true => exact absurd hpt hC
    · rcases Nat.eq_zero_or_pos pe.compressed_size with h0 | h0
      · exact Or.inl h0
      · exact Or.inr (Nat.pos_of_ne_zero (hD h0))
  · rintro ⟨hd, hf, hp, hcs, ho⟩ hbad
    rcases hbad with ((((h | h) | h) | h) | h)
    · exact h hd
    · exact h hf
    · rw [hp] at h; exact Bool.false_ne_true h
    · rcases hcs with h2 | h2 <;> omega
    · omega

/-- C1: for an entry whose metadata ciphertext AEAD-opens, the decoded
metadata is accepted if and only if the decrypted length equals
`sizeof(FileEntryPlain)`, `filename[MAX_FILENAME-1] == 0`,
`has_path_traversal(filename)` is false, `compressed_size == 0` or
`original_size > 0`, and `original_size <= MAX_FILE_SIZE`; if any of these
fails, `extract_files` stops at that entry and returns 1. -/
theorem extract_meta_validation (c : Ctx) (i r : Nat) (ent : FileEntry)
    (pe : FileEntryPlain) (dsz : Nat)
    (h1 : (c.entries i).entryRead = some ent)
    (h2 : c.aeadMeta c.metaKey ent.nonce ent.encrypted_data ent.tag
      = some (pe, dsz)) :
    (metaInvalid dsz pe = false ↔
      (dsz = sizeofFileEntryPlain
        ∧ pe.filename.get? (MAX_FILENAME - 1) = some 0
        ∧ has_path_traversal (cstr pe.filename) = false
        ∧ (pe.compressed_size = 0 ∨ 0 < pe.original_size)
        ∧ pe.original_size ≤ MAX_FILE_SIZE))
    ∧ (metaInvalid dsz pe = true →
        extractLoop c i (r + 1) = (1, Ev.readEntry i :: cleanup)) := by
  refine ⟨metaInvalid_false_iff dsz pe, ?_⟩
  intro hmi
  simp [extractLoop, entryStep, h1, h2, hmi]

theorem extract_meta_validation_witness :
    extractLoop cW 0 1 = (1, Ev.readEntry 0 :: cleanup) :=
  (extract_meta_validation cW 0 0 entW peBadW 0 rfl rfl).2 (by decide)

theorem extract_derive_fail_no_zeroize :
    extract_files envC4 none false = (1, [Ev.closeIn])
    ∧ Ev.zeroFileKey ∉ (extract_files envC4 none false).2
    ∧ Ev.zeroMetaKey ∉ (extract_files envC4 none false).2
    ∧ Ev.closeIn ∈ (extract_files envC4 none false).2 := by
  have h : extract_files envC4 none false = (1, [Ev.closeIn]) := rfl
  rw [h]
  exact ⟨rfl, by simp, by simp, by simp⟩

theorem headerBytesPre_eq_take (h : ArchiveHeader) (hw : hdrWf h) :
    headerBytesPre h = (headerBytes h).take offsetofHmac := by
  obtain ⟨h1, h2, h3⟩ := hw
  have hlen : (headerBytesPre h).length = offsetofHmac := by
    simp [headerBytesPre, le2, le4, h1, h2, h3, SALT_SIZE, MAX_OUTDIR,
      offsetofHmac]
  rw [headerBytes, ← hlen, List.take_left]

/-- C2: in both `extract_files` and `list_files` the header HMAC is
computed with the derived `file_key` over exactly the serialized header
bytes from offset 0 up to but excluding the `hmac` field
(`offsetof(ArchiveHeader, hmac)`), and a mismatch with the stored
`header.hmac` makes the operation return 1 before any file entry is
read. -/
theorem header_hmac_coverage
    (env : ExtractEnv) (lenv : ListEnv) (arg : Option (List Nat))
    (force : Bool) (h : ArchiveHeader) (fk mk fk2 mk2 c c2 : List Nat)
    (a : Nat) (hw : hdrWf h)
    (he1 : env.openOk = true) (he2 : env.headerRead = some h)
    (hm : h.magic = SLM_MAGIC) (hv4 : 4 ≤ h.version) (hv6 : h.version ≤ 6)
    (halgo : algoOf h = some a) (hcount : h.file_count ≤ MAX_FILES)
    (hfk : env.deriveFileKey = some fk) (hmk : env.deriveMetaKey = some mk)
    (hh : env.hmacFn fk (headerBytesPre h) = some c) (hne : c ≠ h.hmac)
    (hl1 : lenv.openOk = true) (hl2 : lenv.headerRead = some h)
    (hlfk : lenv.deriveFileKey = some fk2)
    (hlmk : lenv.deriveMetaKey = some mk2)
    (hlh : lenv.hmacFn fk2 (headerBytesPre h) = some c2)
    (hlne : c2 ≠ h.hmac) :
    headerBytesPre h = (headerBytes h).take offsetofHmac
    ∧ extract_files env arg force
        = (1, Ev.hmacCall fk (headerBytesPre h) :: cleanup)
    ∧ (∀ i, Ev.readEntry i ∉ (extract_files env arg force).2)
    ∧ list_files lenv = (1, Ev.hmacCall fk2 (headerBytesPre h) :: cleanup)
    ∧ (∀ i, Ev.readEntry i ∉ (list_files lenv).2) := by
  have hq : ¬MAX_FILES < h.file_count := Nat.not_lt.mpr hcount
  have hex : extract_files env arg force
      = (1, Ev.hmacCall fk (headerBytesPre h) :: cleanup) := by
    simp [extract_files, he1, he2, hm, hv4, hv6, halgo, hq, hfk, hmk, hh,
      hne]
  have hlist : list_files lenv
      = (1, Ev.hmacCall fk2 (headerBytesPre h) :: cleanup) := by
    simp [list_files, hl1, hl2, hm, hv4, hv6, hq, hlfk, hlmk, hlh, hlne]
  refine ⟨headerBytesPre_eq_take h hw, hex, ?_, hlist, ?_⟩
  · intro i; rw [hex]; simp [cleanup]
  · intro i; rw [hlist]; simp [cleanup]

theorem header_hmac_coverage_witness :
    (extract_files envC2 none false).1 = 1 ∧ (list_files lenvC2).1 = 1 := by
  have hthm := header_hmac_coverage envC2 lenvC2 none false hC2 [2] [3] [2]
    [3] [1] [1] 0
    ⟨rfl,
      by show (List.replicate 16 0).length = SALT_SIZE
         rw [List.length_replicate]; rfl,
      by show (List.replicate 4096 0).length = MAX_OUTDIR
         rw [List.length_replicate]; rfl⟩
    rfl rfl rfl (by decide) (by decide) (by decide) (by decide) rfl rfl rfl
    (by decide) rfl rfl rfl rfl rfl (by decide)
  exact ⟨by rw [hthm.2.1], by rw [hthm.2.2.2.1]⟩

theorem extractLoop_succ (c : Ctx) (i r : Nat) :
    extractLoop c i (r + 1)
      = (match entryStep c i (c.entries i) with
        | .error evs => (1, evs)
        | .ok evs =>
          ((extractLoop c (i + 1) r).1, evs ++ (extractLoop c (i + 1) r).2)) :=
  rfl

theorem entryStep_ok_empty (c : Ctx) (i : Nat) (e : EntryEnv)
    (ent : FileEntry) (pe : FileEntryPlain) (dsz : Nat)
    (h1 : e.entryRead = some ent)
    (h2 : c.aeadMeta c.metaKey ent.nonce ent.encrypted_data ent.tag
      = some (pe, dsz))
    (h3 : metaInvalid dsz pe = false)
    (h4 : e.allocPathOk = true)
    (h5 : (!c.force && e.fileExists) = false)
    (h6 : e.parentOk = true)
    (hz : pe.original_size = 0)
    (hemo : e.emptyOpenOk = true) :
    entryStep c i e = .ok [Ev.readEntry i,
      Ev.joinPath c.dir (cstr pe.filename), Ev.createEmpty i] := by
  obtain ⟨er, apo, fex, par, emo, ntr, enc, drd, acp, aou, dco, oop, wok⟩ := e
  subst h1 h4 h6 hemo
  dsimp only [entryStep]
  rw [h2]
  dsimp only []
  rw [h3, h5, if_pos hz]
  rfl

theorem entryStep_eq_tail (c : Ctx) (i : Nat) (e : EntryEnv)
    (ent : FileEntry) (pe : FileEntryPlain) (dsz : Nat)
    (nz tg ct : List Nat) (devs : List Ev)
    (h1 : e.entryRead = some ent)
    (h2 : c.aeadMeta c.metaKey ent.nonce ent.encrypted_data ent.tag
      = some (pe, dsz))
    (h3 : metaInvalid dsz pe = false)
    (h4 : e.allocPathOk = true)
    (h5 : (!c.force && e.fileExists) = false)
    (h6 : e.parentOk = true)
    (h7 : ¬pe.original_size = 0)
    (h8 : e.nonceTagRead = some (nz, tg))
    (h9 : e.allocEncOk = true)
    (h10 : (pe.compressed_size = 0 ∧ ct = [] ∧ devs = ([] : List Ev))
      ∨ (0 < pe.compressed_size ∧ e.dataRead = some ct
          ∧ devs = [Ev.readPayloadData i pe.compressed_size])) :
    entryStep c i e = entryTail c i e pe
      [Ev.readEntry i, Ev.joinPath c.dir (cstr pe.filename),
        Ev.readPayloadNonceTag i] ct devs nz tg := by
  obtain ⟨er, apo, fex, par, emo, ntr, enc, drd, acp, aou, dco, oop, wok⟩ := e
  subst h1 h4 h6 h8 h9
  rcases h10 with ⟨hcs, hct, hdevs⟩ | ⟨hcs, hdr, hdevs⟩
  · subst hct hdevs
    dsimp only [entryStep]
    rw [h2]
    dsimp only []
    rw [h3, h5, if_neg h7, if_pos hcs]
    rfl
  · have hcsne : ¬pe.compressed_size = 0 := Nat.pos_iff_ne_zero.mp hcs
    subst hdr hdevs
    dsimp only [entryStep]
    rw [h2]
    dsimp only []
    rw [h3, h5, if_neg h7, if_neg hcsne]
    rfl

theorem entryTail_error_mismatch (c : Ctx) (i : Nat) (e : EntryEnv)
    (pe : FileEntryPlain) (pre : List Ev) (ct : List Nat) (devs : List Ev)
    (nz tg comp : List Nat)
    (h11 : e.allocCompOk = true)
    (h12 : c.aeadBytes c.fileKey nz ct tg = some comp)
    (h13 : e.allocOutOk = true)
    (hne : e.decompressOut ≠ pe.original_size) :
    entryTail c i e pe pre ct devs nz tg
      = .error (pre ++ devs ++ [Ev.aeadOpenFile i ct.length] ++ cleanup) := by
  obtain ⟨er, apo, fex, par, emo, ntr, enc, drd, acp, aou, dco, oop, wok⟩ := e
  subst h11 h13
  dsimp only [entryTail]
  rw [h12]
  dsimp only []
  rw [if_neg hne]
  rfl

theorem entryTail_ok_write (c : Ctx) (i : Nat) (e : EntryEnv)
    (pe : FileEntryPlain) (pre : List Ev) (ct : List Nat) (devs : List Ev)
    (nz tg comp : List Nat)
    (h11 : e.allocCompOk = true)
    (h12 : c.aeadBytes c.fileKey nz ct tg = some comp)
    (h13 : e.allocOutOk = true)
    (heq : e.decompressOut = pe.original_size)
    (hoop : e.outOpenOk = true)
    (hwok : e.writeOk = true) :
    entryTail c i e pe pre ct devs nz tg
      = .ok (pre ++ devs ++ [Ev.aeadOpenFile i ct.length,
          Ev.writeFile i pe.original_size]) := by
  obtain ⟨er, apo, fex, par, emo, ntr, enc, drd, acp, aou, dco, oop, wok⟩ := e
  subst h11 h13 hoop hwok
  dsimp only [entryTail]
  rw [h12]
  dsimp only []
  rw [if_pos heq]
  rfl

/-- C9: once an entry with `original_size > 0` has been decrypted, if
`decompress_data` produces an output length different from the entry's
`original_size` then extraction fails with return 1 and nothing further is
written (the loop halts with no write event); extraction proceeds to the
next entry only when the decompressed length equals `original_size`
exactly. -/
theorem decompress_length_gate (c : Ctx) (i r : Nat) (ent : FileEntry)
    (pe : FileEntryPlain) (dsz : Nat) (nz tg ct comp : List Nat)
    (devs : List Ev)
    (h1 : (c.entries i).entryRead = some ent)
    (h2 : c.aeadMeta c.metaKey ent.nonce ent.encrypted_data ent.tag
      = some (pe, dsz))
    (h3 : metaInvalid dsz pe = false)
    (h4 : (c.entries i).allocPathOk = true)
    (h5 : (!c.force && (c.entries i).fileExists) = false)
    (h6 : (c.entries i).parentOk = true)
    (h7 : 0 < pe.original_size)
    (h8 : (c.entries i).nonceTagRead = some (nz, tg))
    (h9 : (c.entries i).allocEncOk = true)
    (h10 : (pe.compressed_size = 0 ∧ ct = [] ∧ devs = ([] : List Ev))
      ∨ (0 < pe.compressed_size ∧ (c.entries i).dataRead = some ct
          ∧ devs = [Ev.readPayloadData i pe.compressed_size]))
    (h11 : (c.entries i).allocCompOk = true)
    (h12 : c.aeadBytes c.fileKey nz ct tg = some comp)
    (h13 : (c.entries i).allocOutOk = true) :
    ((c.entries i).decompressOut ≠ pe.original_size →
      extractLoop c i (r + 1)
        = (1, Ev.readEntry i :: Ev.joinPath c.dir (cstr pe.filename)
            :: Ev.readPayloadNonceTag i
            :: (devs ++ (Ev.aeadOpenFile i ct.length :: cleanup)))
      ∧ ∀ j n, Ev.writeFile j n ∉ (extractLoop c i (r + 1)).2)
    ∧ ((c.entries i).decompressOut = pe.original_size →
        (c.entries i).outOpenOk = true → (c.entries i).writeOk = true →
        extractLoop c i (r + 1)
          = ((extractLoop c (i + 1) r).1,
              Ev.readEntry i :: Ev.joinPath c.dir (cstr pe.filename)
                :: Ev.readPayloadNonceTag i
                :: (devs ++ (Ev.aeadOpenFile i ct.length
                  :: Ev.writeFile i pe.original_size
                  :: (extractLoop c (i + 1) r).2)))) := by
  have h7z : ¬pe.original_size = 0 := Nat.pos_iff_ne_zero.mp h7
  have hstep := entryStep_eq_tail c i (c.entries i) ent pe dsz nz tg ct
    devs h1 h2 h3 h4 h5 h6 h7z h8 h9 h10
  constructor
  · intro hne
    have htail := entryTail_error_mismatch c i (c.entries i) pe
      [Ev.readEntry i, Ev.joinPath c.dir (cstr pe.filename),
        Ev.readPayloadNonceTag i] ct devs nz tg comp h11 h12 h13 hne
    have heq2 : extractLoop c i (r + 1)
        = (1, Ev.readEntry i :: Ev.joinPath c.dir (cstr pe.filename)
            :: Ev.readPayloadNonceTag i
            :: (devs ++ (Ev.aeadOpenFile i ct.length :: cleanup))) := by
      rw [extractLoop_succ, hstep, htail]
      simp
    refine ⟨heq2, ?_⟩
    intro j n
    rw [heq2]
    rcases h10 with ⟨hx1, hx2, hdevs⟩ | ⟨hx1, hx2, hdevs⟩ <;> subst hdevs <;>
      simp [cleanup]
  · intro heq3 hoop hwok
    have htail := entryTail_ok_write c i (c.entries i) pe
      [Ev.readEntry i, Ev.joinPath c.dir (cstr pe.filename),
        Ev.readPayloadNonceTag i] ct devs nz tg comp h11 h12 h13 heq3
      hoop hwok
    rw [extractLoop_succ, hstep, htail]
    simp

/-- C10: the per-file payload is consumed from the stream if and only if
the decoded `original_size` is positive: when `original_size == 0` the
entry completes with only an empty-file creation and no payload events;
and metadata with `original_size > 0` yet `compressed_size == 0` passes
validation, after which the loop still reads a nonce and tag and
AEAD-opens a zero-length ciphertext. -/
theorem payload_read_iff_positive_size (c : Ctx) (i : Nat)
    (ent : FileEntry) (pe : FileEntryPlain) (dsz : Nat)
    (nz tg comp : List Nat)
    (h1 : (c.entries i).entryRead = some ent)
    (h2 : c.aeadMeta c.metaKey ent.nonce ent.encrypted_data ent.tag
      = some (pe, dsz))
    (hd : dsz = sizeofFileEntryPlain)
    (hf : pe.filename.get? (MAX_FILENAME - 1) = some 0)
    (hp : has_path_traversal (cstr pe.filename) = false)
    (hM : pe.original_size ≤ MAX_FILE_SIZE)
    (hcs : pe.compressed_size = 0)
    (h4 : (c.entries i).allocPathOk = true)
    (h5 : (!c.force && (c.entries i).fileExists) = false)
    (h6 : (c.entries i).parentOk = true) :
    metaInvalid dsz pe = false
    ∧ (pe.original_size = 0 → (c.entries i).emptyOpenOk = true →
        entryStep c i (c.entries i)
          = .ok [Ev.readEntry i, Ev.joinPath c.dir (cstr pe.filename),
              Ev.createEmpty i])
    ∧ (0 < pe.original_size →
        (c.entries i).nonceTagRead = some (nz, tg) →
        (c.entries i).allocEncOk = true →
        (c.entries i).allocCompOk = true →
        c.aeadBytes c.fileKey nz [] tg = some comp →
        (c.entries i).allocOutOk = true →
        (c.entries i).decompressOut = pe.original_size →
        (c.entries i).outOpenOk = true → (c.entries i).writeOk = true →
        entryStep c i (c.entries i)
          = .ok [Ev.readEntry i, Ev.joinPath c.dir (cstr pe.filename),
              Ev.readPayloadNonceTag i, Ev.aeadOpenFile i 0,
              Ev.writeFile i pe.original_size]) := by
  have h3 : metaInvalid dsz pe = false :=
    (metaInvalid_false_iff dsz pe).mpr ⟨hd, hf, hp, Or.inl hcs, hM⟩
  refine ⟨h3, ?_, ?_⟩
  · intro hz hopen
    exact entryStep_ok_empty c i (c.entries i) ent pe dsz h1 h2 h3 h4 h5
      h6 hz hopen
  · intro hpos hnt henc hcomp haead hout hdec hopen hwrite
    have h7z : ¬pe.original_size = 0 := Nat.pos_iff_ne_zero.mp hpos
    have hstep := entryStep_eq_tail c i (c.entries i) ent pe dsz nz tg []
      [] h1 h2 h3 h4 h5 h6 h7z hnt henc (Or.inl ⟨hcs, rfl, rfl⟩)
    have htail := entryTail_ok_write c i (c.entries i) pe
      [Ev.readEntry i, Ev.joinPath c.dir (cstr pe.filename),
        Ev.readPayloadNonceTag i] [] [] nz tg comp hcomp haead hout hdec
      hopen hwrite
    rw [hstep, htail]
    rfl

theorem decompress_length_gate_witness :
    extractLoop c9 0 1
      = (1, Ev.readEntry 0 :: Ev.joinPath c9.dir (cstr pe9.filename)
          :: Ev.readPayloadNonceTag 0
          :: (([] : List Ev)
            ++ (Ev.aeadOpenFile 0 ([] : List Nat).length :: cleanup))) :=
  ((decompress_length_gate c9 0 0 ent9 pe9 276 [] [] [] [] [] rfl rfl
    (by decide) rfl rfl rfl (by decide) rfl rfl (Or.inl ⟨rfl, rfl, rfl⟩)
    rfl rfl rfl).1 (by decide)).1

theorem payload_read_iff_positive_size_witness :
    entryStep c10 0 (c10.entries 0)
      = .ok [Ev.readEntry 0, Ev.joinPath c10.dir (cstr pe10.filename),
          Ev.createEmpty 0] :=
  (payload_read_iff_positive_size c10 0 ent10 pe10 276 [] [] [] rfl rfl
    (by decide) (by decide) (by decide) (by decide) rfl rfl rfl
    rfl).2.1 rfl rfl

theorem entryTail_join (c : Ctx) (i : Nat) (e : EntryEnv)
    (pe : FileEntryPlain) (pre : List Ev) (ct : List Nat) (devs : List Ev)
    (nz tg d f : List Nat)
    (hmem : Ev.joinPath d f ∈ stepEvs (entryTail c i e pe pre ct devs nz tg)) :
    Ev.joinPath d f ∈ pre ∨ Ev.joinPath d f ∈ devs := by
  obtain ⟨er, apo, fex, par, emo, ntr, enc, drd, acp, aou, dco, oop, wok⟩ := e
  dsimp only [entryTail] at hmem
  revert hmem
  cases acp with
  | false =>
    intro hmem
    have h2 : Ev.joinPath d f ∈ pre ++ devs ++ cleanup := hmem
    simp [cleanup] at h2
    tauto
  | true =>
    cases h2 : c.aeadBytes c.fileKey nz ct tg with
    | none =>
      intro hmem
      have h3 : Ev.joinPath d f ∈ pre ++ devs ++ cleanup := hmem
      simp [cleanup] at h3
      tauto
    | some comp =>
      cases aou with
      | false =>
        intro hmem
        have h3 : Ev.joinPath d f
            ∈ pre ++ devs ++ [Ev.aeadOpenFile i ct.length] ++ cleanup :=
          hmem
        simp [cleanup] at h3
        tauto
      | true =>
        by_cases h4 : dco = pe.original_size
        · rw [if_pos h4]
          cases oop with
          | false =>
            intro hmem
            have h3 : Ev.joinPath d f
                ∈ pre ++ devs ++ [Ev.aeadOpenFile i ct.length] ++ cleanup :=
              hmem
            simp [cleanup] at h3
            tauto
          | true =>
            cases wok with
            | false =>
              intro hmem
              have h3 : Ev.joinPath d f
                  ∈ pre ++ devs ++ [Ev.aeadOpenFile i ct.length] ++ cleanup :=
                hmem
              simp [cleanup] at h3
              tauto
            | true =>
              intro hmem
              have h3 : Ev.joinPath d f
                  ∈ pre ++ devs ++ [Ev.aeadOpenFile i ct.length,
                      Ev.writeFile i pe.original_size] := hmem
              simp at h3
              tauto
        · rw [if_neg h4]
          intro hmem
          have h3 : Ev.joinPath d f
              ∈ pre ++ devs ++ [Ev.aeadOpenFile i ct.length] ++ cleanup :=
            hmem
          simp [cleanup] at h3
          tauto

theorem entryStep_join (c : Ctx) (i : Nat) (e : EntryEnv) (d f : List Nat)
    (hmem : Ev.joinPath d f ∈ stepEvs (entryStep c i e)) :
    d = c.dir ∧ has_path_traversal f = false := by
  obtain ⟨er, apo, fex, par, emo, ntr, enc, drd, acp, aou, dco, oop, wok⟩ := e
  cases er with
  | none =>
    have h2 : Ev.joinPath d f ∈ cleanup := hmem
    simp [cleanup] at h2
  | some ent =>
    dsimp only [entryStep] at hmem
    revert hmem
    cases ha : c.aeadMeta c.metaKey ent.nonce ent.encrypted_data ent.tag with
    | none =>
      intro hmem
      have h2 : Ev.joinPath d f ∈ Ev.readEntry i :: cleanup := hmem
      simp [cleanup] at h2
    | some pd =>
      intro hmem
      obtain ⟨pe, dsz⟩ := pd
      dsimp only [] at hmem
      revert hmem
      cases hmi : metaInvalid dsz pe with
      | true =>
        intro hmem
        have h2 : Ev.joinPath d f ∈ Ev.readEntry i :: cleanup := hmem
        simp [cleanup] at h2
      | false =>
        have hptf : has_path_traversal (cstr pe.filename) = false :=
          ((metaInvalid_false_iff dsz pe).mp hmi).2.2.1
        cases apo with
        | false =>
          intro hmem
          have h2 : Ev.joinPath d f ∈ Ev.readEntry i :: cleanup := hmem
          simp [cleanup] at h2
        | true =>
          cases hfe : !c.force && fex with
          | true =>
            intro hmem
            have h2 : Ev.joinPath d f
                ∈ [Ev.readEntry i, Ev.joinPath c.dir (cstr pe.filename)]
                  ++ cleanup := hmem
            simp [cleanup] at h2
            exact ⟨h2.1, by rw [h2.2]; exact hptf⟩
          | false =>
            cases par with
            | false =>
              intro hmem
              have h2 : Ev.joinPath d f
                  ∈ [Ev.readEntry i, Ev.joinPath c.dir (cstr pe.filename)]
                    ++ cleanup := hmem
              simp [cleanup] at h2
              exact ⟨h2.1, by rw [h2.2]; exact hptf⟩
            | true =>
              by_cases hz : pe.original_size = 0
              · rw [if_pos hz]
                cases emo with
                | true =>
                  intro hmem
                  have h2 : Ev.joinPath d f
                      ∈ [Ev.readEntry i,
                          Ev.joinPath c.dir (cstr pe.filename),
                          Ev.createEmpty i] := hmem
                  simp at h2
                  exact ⟨h2.1, by rw [h2.2]; exact hptf⟩
                | false =>
                  intro hmem
                  have h2 : Ev.joinPath d f
                      ∈ [Ev.readEntry i,
                          Ev.joinPath c.dir (cstr pe.filename)]
                        ++ cleanup := hmem
                  simp [cleanup] at h2
                  exact ⟨h2.1, by rw [h2.2]; exact hptf⟩
              · rw [if_neg hz]
                cases ntr with
                | none =>
                  intro hmem
                  have h2 : Ev.joinPath d f
                      ∈ [Ev.readEntry i,
                          Ev.joinPath c.dir (cstr pe.filename)]
                        ++ cleanup := hmem
                  simp [cleanup] at h2
                  exact ⟨h2.1, by rw [h2.2]; exact hptf⟩
                | some nztg =>
                  intro hmem
                  obtain ⟨nz, tg⟩ := nztg
                  dsimp only [] at hmem
                  revert hmem
                  cases enc with
                  | false =>
                    intro hmem
                    have h2 : Ev.joinPath d f
                        ∈ [Ev.readEntry i,
                            Ev.joinPath c.dir (cstr pe.filename),
                            Ev.readPayloadNonceTag i] ++ cleanup := hmem
                    simp [cleanup] at h2
                    exact ⟨h2.1, by rw [h2.2]; exact hptf⟩
                  | true =>
                    by_cases hcs : pe.compressed_size = 0
                    · rw [if_pos hcs]
                      intro hmem
                      rcases entryTail_join c i _ pe _ _ _ nz tg d f hmem
                        with h | h
                      · simp at h
                        exact ⟨h.1, by rw [h.2]; exact hptf⟩
                      · simp at h
                    · rw [if_neg hcs]
                      cases drd with
                      | none =>
                        intro hmem
                        have h2 : Ev.joinPath d f
                            ∈ [Ev.readEntry i,
                                Ev.joinPath c.dir (cstr pe.filename),
                                Ev.readPayloadNonceTag i] ++ cleanup :=
                          hmem
                        simp [cleanup] at h2
                        exact ⟨h2.1, by rw [h2.2]; exact hptf⟩
                      | some bs =>
                        intro hmem
                        rcases entryTail_join c i _ pe _ _ _ nz tg d f
                          hmem with h | h
                        · simp at h
                          exact ⟨h.1, by rw [h.2]; exact hptf⟩
                        · simp at h

theorem extractLoop_join (c : Ctx) (r : Nat) : ∀ i d f,
    Ev.joinPath d f ∈ (extractLoop c i r).2 →
    d = c.dir ∧ has_path_traversal f = false := by
  induction r with
  | zero =>
    intro i d f h
    simp [extractLoop, cleanup] at h
  | succ n ih =>
    intro i d f h
    cases hs : entryStep c i (c.entries i) with
    | error evs =>
      simp only [extractLoop, hs] at h
      exact entryStep_join c i (c.entries i) d f (by rw [hs]; exact h)
    | ok evs =>
      simp only [extractLoop, hs] at h
      rw [List.mem_append] at h
      rcases h with h | h
      · exact entryStep_join c i (c.entries i) d f (by rw [hs]; exact h)
      · exact ih (i + 1) d f h

theorem resolveCandidate_no_traversal (env : ExtractEnv) (mk : List Nat)
    (hdr : ArchiveHeader) (arg : Option (List Nat)) (cand : List Nat)
    (harg : ∀ x, arg = some x → has_path_traversal x = false)
    (hc : resolveCandidate env mk hdr arg = some cand) :
    has_path_traversal cand = false := by
  cases arg with
  | some dd =>
    have hd := harg dd rfl
    cases ho : env.allocOutdirArgOk with
    | false => simp [resolveCandidate, ho] at hc
    | true =>
      simp [resolveCandidate, ho] at hc
      rw [← hc]; exact hd
  | none =>
    by_cases hv : 6 ≤ hdr.version ∧ 0 < hdr.outdir_len
    · by_cases hlen : MAX_OUTDIR - AES_NONCE_SIZE - AES_TAG_SIZE
          < hdr.outdir_len
      · simp [resolveCandidate, hv, hlen] at hc
      · cases hall : env.allocDecOutdirOk with
        | false => simp [resolveCandidate, hv, hlen, hall] at hc
        | true =>
          cases hdec : env.aeadBytes mk
              ((hdr.outdir.drop hdr.outdir_len).take AES_NONCE_SIZE)
              (hdr.outdir.take hdr.outdir_len)
              ((hdr.outdir.drop (hdr.outdir_len + AES_NONCE_SIZE)).take
                AES_TAG_SIZE) with
          | none => simp [resolveCandidate, hv, hlen, hall, hdec] at hc
          | some dec =>
            by_cases hl : dec.length ≠ hdr.outdir_len
            · simp [resolveCandidate, hv, hlen, hall, hdec, hl] at hc
            · cases hpt2 : has_path_traversal (cstr dec) with
              | true =>
                simp [resolveCandidate, hv, hlen, hall, hdec, hl,
                  hpt2] at hc
              | false =>
                simp [resolveCandidate, hv, hlen, hall, hdec, hl,
                  hpt2] at hc
                rw [← hc]; exact hpt2
    · cases hdot : env.allocDotOk with
      | false => simp [resolveCandidate, hv, hdot] at hc
      | true =>
        simp [resolveCandidate, hv, hdot] at hc
        rw [← hc]; decide

theorem resolveExtractDir_no_traversal (env : ExtractEnv) (mk : List Nat)
    (hdr : ArchiveHeader) (arg : Option (List Nat)) (dir : List Nat)
    (harg : ∀ x, arg = some x → has_path_traversal x = false)
    (hres : resolveExtractDir env mk hdr arg = some dir) :
    has_path_traversal dir = false := by
  cases hc : resolveCandidate env mk hdr arg with
  | none => simp [resolveExtractDir, hc] at hres
  | some cand =>
    have hcand := resolveCandidate_no_traversal env mk hdr arg cand harg hc
    cases hd1 : env.isDir cand with
    | true =>
      simp [resolveExtractDir, hc, hd1] at hres
      rw [← hres]; exact hcand
    | false =>
      cases hd2 : env.allocDot2Ok with
      | false => simp [resolveExtractDir, hc, hd1, hd2] at hres
      | true =>
        cases hd3 : env.isDir dotPath with
        | true =>
          simp [resolveExtractDir, hc, hd1, hd2, hd3] at hres
          rw [← hres]; decide
        | false => simp [resolveExtractDir, hc, hd1, hd2, hd3] at hres

/-- C5: whenever `extract_files` composes an output path
`extract_dir + "/" + filename`, both join components have passed the
traversal check: the filename through metadata validation, and the
extraction directory for every way it was chosen (the caller argument —
which callers reject when it has traversal, modelled from the spec —, the
decrypted header outdir, or the literal `"."`). -/
theorem join_components_traversal_free (env : ExtractEnv)
    (arg : Option (List Nat)) (force : Bool) (d f : List Nat)
    (harg : ∀ x, arg = some x → has_path_traversal x = false)
    (hmem : Ev.joinPath d f ∈ (extract_files env arg force).2) :
    has_path_traversal d = false ∧ has_path_traversal f = false := by
  dsimp only [extract_files] at hmem
  revert hmem
  cases ho : env.openOk with
  | false =>
    intro hmem
    have h0 : Ev.joinPath d f ∈ ([] : List Ev) := hmem
    simp at h0
  | true =>
    cases hh : env.headerRead with
    | none =>
      intro hmem
      have h0 : Ev.joinPath d f ∈ [Ev.closeIn] := hmem
      simp at h0
    | some hdr =>
      intro hmem
      dsimp only [] at hmem
      revert hmem
      by_cases hm : hdr.magic = SLM_MAGIC ∧ 4 ≤ hdr.version
          ∧ hdr.version ≤ 6
      case neg =>
        rw [if_pos hm]
        intro hmem
        have h0 : Ev.joinPath d f ∈ [Ev.closeIn] := hmem
        simp at h0
      case pos =>
        rw [if_neg (not_not_intro hm)]
        cases hal : algoOf hdr with
        | none =>
          intro hmem
          have h0 : Ev.joinPath d f ∈ [Ev.closeIn] := hmem
          simp at h0
        | some a =>
          by_cases hcnt : MAX_FILES < hdr.file_count
          case pos =>
            rw [if_pos hcnt]
            intro hmem
            have h0 : Ev.joinPath d f ∈ [Ev.closeIn] := hmem
            simp at h0
          case neg =>
            rw [if_neg hcnt]
            cases hfk : env.deriveFileKey with
            | none =>
              intro hmem
              have h0 : Ev.joinPath d f ∈ [Ev.closeIn] := hmem
              simp at h0
            | some fk =>
              cases hmk : env.deriveMetaKey with
              | none =>
                intro hmem
                have h0 : Ev.joinPath d f ∈ [Ev.closeIn] := hmem
                simp at h0
              | some mk =>
                intro hmem
                dsimp only [] at hmem
                revert hmem
                cases hhm : env.hmacFn fk (headerBytesPre hdr) with
                | none =>
                  intro hmem
                  have h0 : Ev.joinPath d f
                      ∈ Ev.hmacCall fk (headerBytesPre hdr) :: cleanup :=
                    hmem
                  simp [cleanup] at h0
                | some ch =>
                  intro hmem
                  dsimp only [] at hmem
                  revert hmem
                  by_cases hne : ch ≠ hdr.hmac
                  case pos =>
                    rw [if_pos hne]
                    intro hmem
                    have h0 : Ev.joinPath d f
                        ∈ Ev.hmacCall fk (headerBytesPre hdr)
                          :: cleanup := hmem
                    simp [cleanup] at h0
                  case neg =>
                    rw [if_neg hne]
                    cases hres : resolveExtractDir env mk hdr arg with
                    | none =>
                      intro hmem
                      have h0 : Ev.joinPath d f
                          ∈ Ev.hmacCall fk (headerBytesPre hdr)
                            :: cleanup := hmem
                      simp [cleanup] at h0
                    | some dir =>
                      intro hmem
                      have hdir := resolveExtractDir_no_traversal env mk
                        hdr arg dir harg hres
                      have hloop : Ev.joinPath d f
                          ∈ Ev.hmacCall fk (headerBytesPre hdr)
                            :: (extractLoop (mkCtx env fk mk dir force) 0
                                hdr.file_count).2 := hmem
                      rcases List.mem_cons.mp hloop with heq0 | htail
                      · exact absurd heq0 (by simp)
                      · have hj := extractLoop_join
                          (mkCtx env fk mk dir force) hdr.file_count 0 d f
                          htail
                        refine ⟨?_, hj.2⟩
                        rw [hj.1]
                        exact hdir

theorem join_components_traversal_free_witness :
    has_path_traversal [97] = false
    ∧ has_path_traversal (cstr pe10.filename) = false :=
  join_components_traversal_free envC5 (some [97]) false [97]
    (cstr pe10.filename)
    (fun x hx => by
      have hx2 : x = [97] := (Option.some.inj hx).symm
      rw [hx2]; decide)
    (by
      have h : extract_files envC5 (some [97]) false
          = (0, Ev.hmacCall [2] (headerBytesPre hC5) :: Ev.readEntry 0
              :: Ev.joinPath [97] (cstr pe10.filename) :: Ev.createEmpty 0
              :: cleanup) := rfl
      rw [h]
      simp)

/-- C6: `extract_files` resolves the extraction directory with priority
caller argument, then (for version >= 6 with `outdir_len > 0`) the header
outdir after the length bound, AEAD-open, decrypted-length check and
traversal rejection, then `"."`, with the stat fallback to `"."`; if
resolution fails the operation returns 1.  Stated as equality with the
spec-side `resolveSpecDir`, under the assumption that the allocations of
this phase succeed. -/
theorem outdir_resolution_priority (env : ExtractEnv) (mk : List Nat)
    (hdr : ArchiveHeader) (arg : Option (List Nat)) (force : Bool)
    (fk c : List Nat) (a : Nat)
    (ha1 : env.allocOutdirArgOk = true) (ha2 : env.allocDecOutdirOk = true)
    (ha3 : env.allocDotOk = true) (ha4 : env.allocDot2Ok = true)
    (he1 : env.openOk = true) (he2 : env.headerRead = some hdr)
    (hm : hdr.magic = SLM_MAGIC ∧ 4 ≤ hdr.version ∧ hdr.version ≤ 6)
    (hal : algoOf hdr = some a) (hcnt : ¬MAX_FILES < hdr.file_count)
    (hfk : env.deriveFileKey = some fk) (hmk : env.deriveMetaKey = some mk)
    (hhm : env.hmacFn fk (headerBytesPre hdr) = some c)
    (hok : c = hdr.hmac) :
    resolveExtractDir env mk hdr arg = resolveSpecDir env mk hdr arg
    ∧ (resolveExtractDir env mk hdr arg = none →
        (extract_files env arg force).1 = 1) := by
  constructor
  · dsimp only [resolveExtractDir, resolveCandidate, resolveSpecDir]
    rw [ha1, ha2, ha3, ha4]
    cases arg with
    | some d => rfl
    | none =>
      by_cases hv : 6 ≤ hdr.version ∧ 0 < hdr.outdir_len
      · rw [if_pos hv, if_pos hv]
        by_cases hlen : MAX_OUTDIR - AES_NONCE_SIZE - AES_TAG_SIZE
            < hdr.outdir_len
        · have hlen2 : ¬hdr.outdir_len ≤ MAX_OUTDIR - 12 - 16 :=
            Nat.not_le.mpr hlen
          rw [if_pos hlen, if_neg hlen2]
        · have hlen2 : hdr.outdir_len ≤ MAX_OUTDIR - 12 - 16 :=
            Nat.not_lt.mp hlen
          rw [if_neg hlen, if_pos hlen2]
          dsimp only [AES_NONCE_SIZE, AES_TAG_SIZE]
          cases hdec : env.aeadBytes mk
              ((hdr.outdir.drop hdr.outdir_len).take 12)
              (hdr.outdir.take hdr.outdir_len)
              ((hdr.outdir.drop (hdr.outdir_len + 12)).take 16) with
          | none => rfl
          | some dec =>
            dsimp only []
            by_cases hl : dec.length = hdr.outdir_len
            · cases hpt2 : has_path_traversal (cstr dec) with
              | true =>
                have hrhs : ¬(dec.length = hdr.outdir_len
                    ∧ (true : Bool) = false) :=
                  fun h => Bool.false_ne_true h.2.symm
                rw [if_neg (not_not_intro hl), if_neg hrhs]
                rfl
              | false =>
                have hrhs : dec.length = hdr.outdir_len
                    ∧ (false : Bool) = false := ⟨hl, rfl⟩
                rw [if_neg (not_not_intro hl), if_pos hrhs]
                rfl
            · have hlne : dec.length ≠ hdr.outdir_len := hl
              have hrhs : ¬(dec.length = hdr.outdir_len
                  ∧ has_path_traversal (cstr dec) = false) :=
                fun h => hl h.1
              rw [if_pos hlne, if_neg hrhs]
              rfl
      · rw [if_neg hv, if_neg hv]
        rfl
  · intro hnone
    have hnn : ¬¬(hdr.magic = SLM_MAGIC ∧ 4 ≤ hdr.version
        ∧ hdr.version ≤ 6) := not_not_intro hm
    have hrefl : ¬¬(hdr.hmac = hdr.hmac) := not_not_intro rfl
    dsimp only [extract_files]
    rw [he1, he2]
    dsimp only []
    rw [if_neg hnn, hal]
    dsimp only []
    rw [if_neg hcnt, hfk, hmk]
    dsimp only []
    rw [hhm]
    dsimp only []
    rw [hok, if_neg hrefl, hnone]
    rfl

theorem outdir_resolution_priority_witness :
    resolveExtractDir envC5 [3] hC5 none
      = resolveSpecDir envC5 [3] hC5 none :=
  (outdir_resolution_priority envC5 [3] hC5 none false [2] [] 0 rfl rfl
    rfl rfl rfl rfl (by decide) (by decide) (by decide) rfl rfl rfl
    rfl).1

/-- C7 (counterexample): `list_files` does not validate
`compression_algo`: a version-5 header carrying the invalid algorithm
value 7 passes all of `list_files`' header checks and the listing returns
0, where the claim requires a failing return of 1. -/
theorem list_files_skips_algo_check :
    hC7.version = 5 ∧ hC7.compression_algo = 7
    ∧ hC7.compression_algo ≠ COMPRESSION_ZLIB
    ∧ hC7.compression_algo ≠ COMPRESSION_LZMA
    ∧ (list_files lenvC7).1 = 0 :=
  ⟨rfl, rfl, by decide, by decide, by decide⟩

/-- C7 (amended): both `extract_files` and `list_files` check that the
magic equals the SLM magic bytes, version in 4..6 and
`file_count <= MAX_FILES`,
returning 1 otherwise; the compression-algorithm gating — version 4 forced
to LZMA, versions 5 and 6 requiring `compression_algo` in `{0,1}` on pain
of returning 1 — is performed by `extract_files` only; `list_files` does
not validate `compression_algo`. -/
theorem header_validation_gating :
    (∀ (env : ExtractEnv) (arg : Option (List Nat)) (force : Bool)
        (hdr : ArchiveHeader),
      env.openOk = true → env.headerRead = some hdr →
      ¬(hdr.magic = SLM_MAGIC ∧ 4 ≤ hdr.version ∧ hdr.version ≤ 6) →
      extract_files env arg force = (1, [Ev.closeIn]))
    ∧ (∀ (env : ExtractEnv) (arg : Option (List Nat)) (force : Bool)
          (hdr : ArchiveHeader),
        env.openOk = true → env.headerRead = some hdr →
        (hdr.magic = SLM_MAGIC ∧ 4 ≤ hdr.version ∧ hdr.version ≤ 6) →
        algoOf hdr = none → extract_files env arg force = (1, [Ev.closeIn]))
    ∧ (∀ (env : ExtractEnv) (arg : Option (List Nat)) (force : Bool)
          (hdr : ArchiveHeader) (a : Nat),
        env.openOk = true → env.headerRead = some hdr →
        (hdr.magic = SLM_MAGIC ∧ 4 ≤ hdr.version ∧ hdr.version ≤ 6) →
        algoOf hdr = some a → MAX_FILES < hdr.file_count →
        extract_files env arg force = (1, [Ev.closeIn]))
    ∧ (∀ hdr : ArchiveHeader, hdr.version = 4 →
        algoOf hdr = some COMPRESSION_LZMA)
    ∧ (∀ hdr : ArchiveHeader, hdr.version ≠ 4 →
        (algoOf hdr = none ↔ hdr.compression_algo ≠ COMPRESSION_ZLIB
          ∧ hdr.compression_algo ≠ COMPRESSION_LZMA))
    ∧ (∀ (lenv : ListEnv) (hdr : ArchiveHeader),
        lenv.openOk = true → lenv.headerRead = some hdr →
        ¬(hdr.magic = SLM_MAGIC ∧ 4 ≤ hdr.version ∧ hdr.version ≤ 6) →
        list_files lenv = (1, [Ev.closeIn]))
    ∧ (∀ (lenv : ListEnv) (hdr : ArchiveHeader),
        lenv.openOk = true → lenv.headerRead = some hdr →
        (hdr.magic = SLM_MAGIC ∧ 4 ≤ hdr.version ∧ hdr.version ≤ 6) →
        MAX_FILES < hdr.file_count → list_files lenv = (1, [Ev.closeIn])) := by
  refine ⟨?_, ?_, ?_, ?_, ?_, ?_, ?_⟩
  · intro env arg force hdr h1 h2 h3
    simp [extract_files, h1, h2, h3]
  · intro env arg force hdr h1 h2 h3 h4
    simp [extract_files, h1, h2, h3, h4]
  · intro env arg force hdr a h1 h2 h3 h4 h5
    simp [extract_files, h1, h2, h3, h4, h5]
  · intro hdr h4
    simp [algoOf, h4]
  · intro hdr h4
    by_cases hb : hdr.compression_algo ≠ COMPRESSION_ZLIB
        ∧ hdr.compression_algo ≠ COMPRESSION_LZMA <;>
      simp [algoOf, h4, hb]
  · intro lenv hdr h1 h2 h3
    simp [list_files, h1, h2, h3]
  · intro lenv hdr h1 h2 h3 h4
    simp [list_files, h1, h2, h3, h4]

theorem header_validation_gating_witness :
    extract_files envC7 none false = (1, [Ev.closeIn])
    ∧ algoOf hV4 = some COMPRESSION_LZMA :=
  ⟨header_validation_gating.1 envC7 none false hBadMagic rfl rfl
      (by decide),
    header_validation_gating.2.2.2.1 hV4 rfl⟩

/-- C8 (counterexample): after a metadata authentication failure where the
28 payload-prefix bytes are not readable, `list_files` seeks back and
continues with the next entry instead of halting: with two entries, the
first failing authentication at end of data, the second valid entry is
still printed, and only the final status is 1. -/
theorem list_auth_failure_continues :
    lenvC8.aeadMeta [3] [0] [] [] = none
    ∧ (list_files lenvC8).1 = 1
    ∧ Ev.printEntry 1 ∈ (list_files lenvC8).2 := by
  have h : list_files lenvC8
      = (1, Ev.hmacCall [2] (headerBytesPre hC8) :: Ev.readEntry 0
          :: Ev.readEntry 1 :: Ev.printEntry 1 :: cleanup) := rfl
  exact ⟨rfl, by rw [h], by rw [h]; simp⟩

/-- C8 (amended): in `list_files`, when an entry's metadata AEAD-open
fails the error is counted and, if the nonce and tag bytes are readable,
the listing halts with a warning and status 1; if they are not readable
the loop seeks back and continues with the next entry.  When decoded
metadata is invalid the error is counted, `compressed_size + 12 + 16`
bytes are skipped when `compressed_size > 0`, and listing continues.  At
loop end the return value is 1 if any entry failed and 0 otherwise. -/
theorem list_error_handling (c : LCtx) :
    (∀ (i r errs : Nat) (ent : FileEntry),
      (c.lentries i).tellOk = true →
      (c.lentries i).entryRead = some ent →
      c.aeadMeta c.metaKey ent.nonce ent.encrypted_data ent.tag = none →
      (c.lentries i).tellAfterOk = true →
      (c.lentries i).nonceTagReadable = true →
      listLoop c i (r + 1) errs
        = (1, [Ev.readEntry i, Ev.warnStop i] ++ cleanup))
    ∧ (∀ (i r errs : Nat) (ent : FileEntry),
        (c.lentries i).tellOk = true →
        (c.lentries i).entryRead = some ent →
        c.aeadMeta c.metaKey ent.nonce ent.encrypted_data ent.tag = none →
        (c.lentries i).tellAfterOk = true →
        (c.lentries i).nonceTagReadable = false →
        listLoop c i (r + 1) errs
          = ((listLoop c (i + 1) r (errs + 1)).1,
              Ev.readEntry i :: (listLoop c (i + 1) r (errs + 1)).2))
    ∧ (∀ (i r errs dsz : Nat) (ent : FileEntry) (pe : FileEntryPlain),
        (c.lentries i).tellOk = true →
        (c.lentries i).entryRead = some ent →
        c.aeadMeta c.metaKey ent.nonce ent.encrypted_data ent.tag
          = some (pe, dsz) →
        metaInvalid dsz pe = true → 0 < pe.compressed_size →
        (c.lentries i).tellSkipOk = true → (c.lentries i).seekOk = true →
        listLoop c i (r + 1) errs
          = ((listLoop c (i + 1) r (errs + 1)).1,
              Ev.readEntry i :: Ev.skipPayload i
                :: (listLoop c (i + 1) r (errs + 1)).2))
    ∧ (∀ (i r errs dsz : Nat) (ent : FileEntry) (pe : FileEntryPlain),
        (c.lentries i).tellOk = true →
        (c.lentries i).entryRead = some ent →
        c.aeadMeta c.metaKey ent.nonce ent.encrypted_data ent.tag
          = some (pe, dsz) →
        metaInvalid dsz pe = true → pe.compressed_size = 0 →
        listLoop c i (r + 1) errs
          = ((listLoop c (i + 1) r (errs + 1)).1,
              Ev.readEntry i :: (listLoop c (i + 1) r (errs + 1)).2))
    ∧ (∀ i errs : Nat,
        listLoop c i 0 errs = (if 0 < errs then 1 else 0, cleanup)) := by
  refine ⟨?_, ?_, ?_, ?_, ?_⟩
  · intro i r errs ent h1 h2 h3 h4 h5
    simp [listLoop, listStep, h1, h2, h3, h4, h5]
  · intro i r errs ent h1 h2 h3 h4 h5
    simp [listLoop, listStep, h1, h2, h3, h4, h5]
  · intro i r errs dsz ent pe h1 h2 h3 h4 h5 h6 h7
    simp [listLoop, listStep, h1, h2, h3, h4, h5, h6, h7]
  · intro i r errs dsz ent pe h1 h2 h3 h4 h5
    simp [listLoop, listStep, h1, h2, h3, h4, h5]
  · intro i errs
    simp [listLoop]

theorem list_error_handling_witness :
    listLoop lctxC8w 0 1 0
      = (1, [Ev.readEntry 0, Ev.warnStop 0] ++ cleanup) :=
  (list_error_handling lctxC8w).1 0 0 0 entW rfl rfl rfl rfl rfl

end Seclume
